import Mathlib

/-
Verification of the gridworld dynamic-programming engine
(src/gym-gridworld/policy_iteration.py).

The engine consumes the environment only through a narrow interface:
`env.world.size`, `env.action_space.n`, `env.reward_matrix[state]` and
`env.look_step_ahead(state, action) -> (next_state, reward, done)`.
We embed that interface as the structure `Env` below.  Numpy float
arrays are embedded as `List ℚ` (exact arithmetic); policies are
`List (List ℚ)`.

Python mutation is made explicit: `greedy_policy_from_value_function`
assigns `policy[state] = ...` row by row and returns the very same
array, so in this embedding the returned matrix is also the content of
the caller's array after the call (`policy_after_greedy`), and the
control loops are embedded as fuel-indexed state-passing recursions
whose policy component is the mutated array content.
-/

namespace GridworldDP

/-- The transition-model interface consumed by the engine: the flattened
state count (`env.world.size`), the action count (`env.action_space.n`),
the state-indexed reward table (`env.reward_matrix`) and the one-step
lookahead `look_step_ahead(state, action) = (next_state, reward, done)`. -/
structure Env where
  world_size : Nat
  action_space_n : Nat
  reward_matrix : Nat → ℚ
  look_step_ahead : Nat → Nat → Nat × ℚ × Bool

/-- `np.amax` of a list: the maximum of a nonempty list (`0` on the empty
list, where numpy would instead raise). -/
def amax : List ℚ → ℚ
  | [] => 0
  | x :: xs => xs.foldl max x

/-- `ndarray.all()` for a policy matrix: `true` iff every entry is nonzero
(numpy truthiness of a float is being nonzero). -/
def np_all (m : List (List ℚ)) : Bool :=
  m.all fun row => row.all fun q => decide (q ≠ 0)

/-- `single_step_policy_evaluation(policy, env, discount_factor, value_function)`.

The source allocates a fresh `v_new = np.zeros(env.world.size)`, and for
every state adds `env.reward_matrix[state]` once, then for every
`(action, action_prob)` of `enumerate(policy[state])` asks
`env.look_step_ahead(state, action)` and adds
`action_prob * (discount_factor * v[next_state])`.  The per-transition
`reward` and `done` are fetched but never used.  Every state reads the
same input array `v` (a synchronous Jacobi sweep) and the source never
writes into `policy` or `v`, only into the fresh `v_new`. -/
def single_step_policy_evaluation (policy : List (List ℚ)) (env : Env)
    (discount_factor : ℚ) (value_function : Option (List ℚ)) : List ℚ :=
  let v := value_function.getD (List.replicate env.world_size 0)
  (List.range env.world_size).map fun state =>
    let row := policy.getD state []
    env.reward_matrix state +
      ((List.range row.length).map fun action =>
        row.getD action 0 *
          (discount_factor * v.getD (env.look_step_ahead state action).1 0)).sum

/-- The `action_values` array built inside `greedy_policy_from_value_function`
for one state: for every `action` in `range(env.action_space.n)`,
`policy[state][action] * (reward + discount_factor * value_function[next_state])`
where `(next_state, reward, done) = env.look_step_ahead(state, action)`. -/
def action_values_for (policy : List (List ℚ)) (env : Env)
    (value_function : List ℚ) (discount_factor : ℚ) (state : Nat) : List ℚ :=
  (List.range env.action_space_n).map fun action =>
    (policy.getD state []).getD action 0 *
      ((env.look_step_ahead state action).2.1 +
        discount_factor * value_function.getD (env.look_step_ahead state action).1 0)

/-- `max_value_actions = np.where(action_values == np.amax(action_values))[0]`:
the list of actions attaining the maximal action value. -/
def max_value_actions (policy : List (List ℚ)) (env : Env)
    (value_function : List ℚ) (discount_factor : ℚ) (state : Nat) : List Nat :=
  (List.range env.action_space_n).filter fun action =>
    (action_values_for policy env value_function discount_factor state).getD action 0 =
      amax (action_values_for policy env value_function discount_factor state)

/-- The row the source assigns to `policy[state]`:
`1 / len(max_value_actions)` on each maximizing action and `0` elsewhere. -/
def greedy_row (policy : List (List ℚ)) (env : Env)
    (value_function : List ℚ) (discount_factor : ℚ) (state : Nat) : List ℚ :=
  (List.range env.action_space_n).map fun action =>
    if action ∈ max_value_actions policy env value_function discount_factor state then
      1 / ((max_value_actions policy env value_function discount_factor state).length : ℚ)
    else 0

/-- `greedy_policy_from_value_function(policy, env, value_function, discount_factor)`.

The source overwrites `policy[state]` in place for each state and then
returns `policy` itself.  Each state computes its `action_values` from
its own row before that row is overwritten, so the final content of the
array is this pure per-state map over the original input. -/
def greedy_policy_from_value_function (policy : List (List ℚ)) (env : Env)
    (value_function : List ℚ) (discount_factor : ℚ) : List (List ℚ) :=
  (List.range env.world_size).map
    (greedy_row policy env value_function discount_factor)

/-- Content of the caller's `policy` argument after
`greedy_policy_from_value_function` returns.  The source assigns
`policy[state] = ...` for every state and returns that same ndarray, so
after the call the caller's array holds exactly the returned matrix. -/
def policy_after_greedy (policy : List (List ℚ)) (env : Env)
    (value_function : List ℚ) (discount_factor : ℚ) : List (List ℚ) :=
  greedy_policy_from_value_function policy env value_function discount_factor

/-- The `while True` loop of `policy_iteration`, as a fuel-indexed
recursion over the loop state `(policy, value_function, step_number)`;
`none` means the fuel ran out before the loop exited (the source loop
would still be running).  The result carries the returned pair
`(policy_value, greedy_policy)`, whether the max-steps warning was
issued, and the final `step_number`.

Each pass evaluates once, takes the signed `delta =
np.max(value_function - policy_value)`, rebinds `value_function` to
`policy_value`, improves greedily, and increments `step_number`;
`delta < threshold` breaks first, else `step_number == max_steps` warns
and breaks.  The greedy call mutates `policy` in place, so the next pass
evaluates the greedy matrix. -/
def policy_iteration_loop (env : Env) (discount_factor threshold : ℚ)
    (max_steps : Nat) :
    Nat → List (List ℚ) → List ℚ → Nat →
      Option ((List ℚ × List (List ℚ)) × Bool × Nat)
  | 0, _, _, _ => none
  | fuel + 1, policy, value_function, step_number =>
    let policy_value :=
      single_step_policy_evaluation policy env discount_factor (some value_function)
    let delta := amax (List.zipWith (fun a b => a - b) value_function policy_value)
    let greedy_policy :=
      greedy_policy_from_value_function policy env policy_value discount_factor
    let step1 := step_number + 1
    if delta < threshold then some ((policy_value, greedy_policy), false, step1)
    else if step1 = max_steps then some ((policy_value, greedy_policy), true, step1)
    else
      policy_iteration_loop env discount_factor threshold max_steps
        fuel greedy_policy policy_value step1

/-- `policy_iteration(policy, env, value_function, threshold, max_steps)`
with `discount_factor` passed through `kwargs`; the default value
function is `np.zeros(env.world.size)`.  Fuel `max_steps + 1` covers
every terminating run with `max_steps ≥ 1`. -/
def policy_iteration (policy : List (List ℚ)) (env : Env)
    (value_function : Option (List ℚ)) (threshold : ℚ) (max_steps : Nat)
    (discount_factor : ℚ) : Option ((List ℚ × List (List ℚ)) × Bool × Nat) :=
  policy_iteration_loop env discount_factor threshold max_steps (max_steps + 1)
    policy (value_function.getD (List.replicate env.world_size 0)) 0

/-- The `while True` loop of `value_iteration`, over the loop state
`(greedy_policy, value_function, step_number)`.

Only when `delta < threshold` is a new greedy policy computed.  The
greedy call overwrites `greedy_policy` in place and returns that same
array, so at the comparison `greedy_policy.all() == new_policy.all()`
both names hold `new_policy`; the inner `let greedy_policy :=
new_policy` records that mutation.  On the break the loop returns
`(policy_value, greedy_policy)` with `step_number` not incremented; the
not-taken branch adopts `new_policy` and falls through to the
`step_number == max_steps` check, as in the source. -/
def value_iteration_loop (env : Env) (discount_factor threshold : ℚ)
    (max_steps : Nat) :
    Nat → List (List ℚ) → List ℚ → Nat →
      Option ((List ℚ × List (List ℚ)) × Bool × Nat)
  | 0, _, _, _ => none
  | fuel + 1, greedy_policy, value_function, step_number =>
    let policy_value :=
      single_step_policy_evaluation greedy_policy env discount_factor (some value_function)
    let delta := amax (List.zipWith (fun a b => a - b) value_function policy_value)
    if delta < threshold then
      let new_policy :=
        greedy_policy_from_value_function greedy_policy env policy_value discount_factor
      let greedy_policy := new_policy
      if np_all greedy_policy = np_all new_policy then
        some ((policy_value, greedy_policy), false, step_number)
      else
        let step1 := step_number + 1
        if step1 = max_steps then some ((policy_value, new_policy), true, step1)
        else
          value_iteration_loop env discount_factor threshold max_steps
            fuel new_policy policy_value step1
    else
      let step1 := step_number + 1
      if step1 = max_steps then some ((policy_value, greedy_policy), true, step1)
      else
        value_iteration_loop env discount_factor threshold max_steps
          fuel greedy_policy policy_value step1

/-- `value_iteration(policy, env, value_function, threshold, max_steps)`:
the caller-supplied policy seeds `greedy_policy`, the default value
function is `np.zeros(env.world.size)`. -/
def value_iteration (policy : List (List ℚ)) (env : Env)
    (value_function : Option (List ℚ)) (threshold : ℚ) (max_steps : Nat)
    (discount_factor : ℚ) : Option ((List ℚ × List (List ℚ)) × Bool × Nat) :=
  value_iteration_loop env discount_factor threshold max_steps (max_steps + 1)
    policy (value_function.getD (List.replicate env.world_size 0)) 0

/-- The hypothesis "the step budget is exhausted before delta < threshold"
for a policy_iteration run, as a checkable predicate on the loop state:
for each of the next `fuel` passes, the signed delta of that pass stays at
or above the threshold.  The state recurrence is the one of
`policy_iteration_loop`: the next pass evaluates the in-place-overwritten
greedy matrix against the new value function. -/
def pi_all_deltas_at_least (env : Env) (d th : ℚ) :
    Nat → List (List ℚ) → List ℚ → Bool
  | 0, _, _ => true
  | fuel + 1, policy, v =>
    let pv := single_step_policy_evaluation policy env d (some v)
    (!decide (amax (List.zipWith (fun a b => a - b) v pv) < th)) &&
      pi_all_deltas_at_least env d th fuel
        (greedy_policy_from_value_function policy env pv d) pv

/-- The hypothesis "the step budget is exhausted before delta < threshold"
for a value_iteration run: for each of the next `fuel` passes the signed
delta stays at or above the threshold.  On such passes value_iteration
computes no greedy policy, so the policy component is unchanged. -/
def vi_all_deltas_at_least (env : Env) (d th : ℚ) :
    Nat → List (List ℚ) → List ℚ → Bool
  | 0, _, _ => true
  | fuel + 1, gp, v =>
    let pv := single_step_policy_evaluation gp env d (some v)
    (!decide (amax (List.zipWith (fun a b => a - b) v pv) < th)) &&
      vi_all_deltas_at_least env d th fuel gp pv

/-! ### Basic lemmas about the embedding -/

theorem sum_map_range (n : Nat) (f : Nat → ℚ) :
    ((List.range n).map f).sum = ∑ i ∈ Finset.range n, f i := by
  induction n with
  | zero => simp
  | succ n ih =>
    rw [List.range_succ, List.map_append, List.sum_append, Finset.sum_range_succ, ih]
    simp

theorem getD_map_range {α : Type} {n i : Nat} (f : Nat → α) (d : α) (h : i < n) :
    ((List.range n).map f).getD i d = f i := by
  rw [List.getD_eq_getElem?_getD, List.getElem?_map, List.getElem?_range h]
  rfl

theorem le_foldl_max (x : ℚ) (l : List ℚ) : x ≤ l.foldl max x := by
  induction l generalizing x with
  | nil => exact le_refl x
  | cons y ys ih => exact le_trans (le_max_left x y) (ih (max x y))

theorem foldl_max_cases (x : ℚ) (l : List ℚ) : l.foldl max x = x ∨ l.foldl max x ∈ l := by
  induction l generalizing x with
  | nil => exact Or.inl rfl
  | cons y ys ih =>
    rw [List.foldl_cons]
    rcases ih (max x y) with h | h
    · rcases max_choice x y with hm | hm
      · exact Or.inl (by rw [h, hm])
      · exact Or.inr (by rw [h, hm]; exact List.mem_cons_self y ys)
    · exact Or.inr (List.mem_cons_of_mem y h)

theorem mem_le_foldl_max (x a : ℚ) (l : List ℚ) (h : a ∈ l) : a ≤ l.foldl max x := by
  induction l generalizing x with
  | nil => cases h
  | cons y ys ih =>
    rw [List.foldl_cons]
    rcases List.mem_cons.mp h with rfl | h2
    · exact le_trans (le_max_right x a) (le_foldl_max _ ys)
    · exact ih _ h2

theorem amax_mem {l : List ℚ} (h : l ≠ []) : amax l ∈ l := by
  cases l with
  | nil => exact absurd rfl h
  | cons x xs =>
    show xs.foldl max x ∈ x :: xs
    rcases foldl_max_cases x xs with h1 | h1
    · rw [h1]; exact List.mem_cons_self x xs
    · exact List.mem_cons_of_mem x h1

theorem le_amax {l : List ℚ} {a : ℚ} (h : a ∈ l) : a ≤ amax l := by
  cases l with
  | nil => cases h
  | cons x xs =>
    show a ≤ xs.foldl max x
    rcases List.mem_cons.mp h with rfl | h2
    · exact le_foldl_max a xs
    · exact mem_le_foldl_max x a xs h2

/-- The evaluator unfolded to the per-state map (the two lets of the source
body reduced). -/
theorem single_step_policy_evaluation_def (policy : List (List ℚ)) (env : Env)
    (d : ℚ) (v : List ℚ) :
    single_step_policy_evaluation policy env d (some v) =
      (List.range env.world_size).map fun state =>
        env.reward_matrix state +
          ((List.range (policy.getD state []).length).map fun action =>
            (policy.getD state []).getD action 0 *
              (d * v.getD (env.look_step_ahead state action).1 0)).sum := rfl

theorem single_step_policy_evaluation_length (policy : List (List ℚ)) (env : Env)
    (d : ℚ) (v : Option (List ℚ)) :
    (single_step_policy_evaluation policy env d v).length = env.world_size := by
  rw [single_step_policy_evaluation]
  simp

theorem single_step_policy_evaluation_getD (policy : List (List ℚ)) (env : Env)
    (d : ℚ) (v : List ℚ) {s : Nat} (hs : s < env.world_size) :
    (single_step_policy_evaluation policy env d (some v)).getD s 0 =
      env.reward_matrix s +
        ∑ a ∈ Finset.range (policy.getD s []).length,
          (policy.getD s []).getD a 0 *
            (d * v.getD (env.look_step_ahead s a).1 0) := by
  rw [single_step_policy_evaluation_def, getD_map_range _ _ hs, sum_map_range]

theorem greedy_policy_getD_row (policy : List (List ℚ)) (env : Env)
    (v : List ℚ) (d : ℚ) {s : Nat} (hs : s < env.world_size) :
    (greedy_policy_from_value_function policy env v d).getD s [] =
      greedy_row policy env v d s := by
  rw [greedy_policy_from_value_function, getD_map_range _ _ hs]

/-- With at least one action, the argmax set of a state is nonempty. -/
theorem max_value_actions_ne_nil (policy : List (List ℚ)) (env : Env)
    (v : List ℚ) (d : ℚ) (s : Nat) (hA : 0 < env.action_space_n) :
    max_value_actions policy env v d s ≠ [] := by
  have hlen : (action_values_for policy env v d s).length = env.action_space_n := by
    rw [action_values_for, List.length_map, List.length_range]
  have hne : action_values_for policy env v d s ≠ [] := by
    intro h
    rw [h] at hlen
    simp at hlen
    omega
  obtain ⟨i, hi, hget⟩ := List.mem_iff_getElem.mp (amax_mem hne)
  have hiA : i < env.action_space_n := hlen ▸ hi
  have hgetD : (action_values_for policy env v d s).getD i 0 =
      amax (action_values_for policy env v d s) := by
    rw [List.getD_eq_getElem?_getD, List.getElem?_eq_getElem hi, hget]
    rfl
  have hiM : i ∈ max_value_actions policy env v d s := by
    rw [max_value_actions, List.mem_filter]
    exact ⟨List.mem_range.mpr hiA, decide_eq_true hgetD⟩
  intro h
  rw [h] at hiM
  cases hiM

/-! ### Concrete environments used by the witnesses and counterexamples -/

/-- One state with a single self-loop action, state reward 2, transition
reward 3 (exercises that the transition reward is ignored by evaluation). -/
def envW : Env where
  world_size := 1
  action_space_n := 1
  reward_matrix := fun _ => 2
  look_step_ahead := fun _ _ => (0, 3, false)

/-- One state, three actions, transition rewards 1, 1, -1: the first two
actions tie for the maximal action value. -/
def envT : Env where
  world_size := 1
  action_space_n := 3
  reward_matrix := fun _ => 0
  look_step_ahead := fun _ a => (0, if a = 2 then -1 else 1, false)

/-- One state, one zero-reward self-loop action. -/
def envP : Env where
  world_size := 1
  action_space_n := 1
  reward_matrix := fun _ => 0
  look_step_ahead := fun _ _ => (0, 0, false)

/-- Two states, two zero-reward self-loop actions each. -/
def envC : Env where
  world_size := 2
  action_space_n := 2
  reward_matrix := fun _ => 0
  look_step_ahead := fun s _ => (s, 0, false)

/-- One state, state reward -1: the first sweep strictly lowers the value,
so the signed delta is 1 and the loop does not converge at once. -/
def envD : Env where
  world_size := 1
  action_space_n := 1
  reward_matrix := fun _ => -1
  look_step_ahead := fun _ _ => (0, 0, false)

/-- Two states, two actions moving deterministically to states 0 and 1. -/
def envG : Env where
  world_size := 2
  action_space_n := 2
  reward_matrix := fun _ => 0
  look_step_ahead := fun _ a => (if a = 0 then 0 else 1, 1, false)

/-- One state, two zero-reward self-loop actions. -/
def envM : Env where
  world_size := 1
  action_space_n := 2
  reward_matrix := fun _ => 0
  look_step_ahead := fun _ _ => (0, 0, false)

/-- One state, state reward 1, self loop: with discount 1/2 the value 2 is
the exact fixed point of the evaluation update. -/
def envF : Env where
  world_size := 1
  action_space_n := 1
  reward_matrix := fun _ => 1
  look_step_ahead := fun _ _ => (0, 0, false)

/-- Transition model whose step reports done = true. -/
def envI1 : Env where
  world_size := 1
  action_space_n := 1
  reward_matrix := fun _ => 0
  look_step_ahead := fun _ _ => (0, 5, true)

/-- Same model as envI1 except the done flag is false. -/
def envI2 : Env where
  world_size := 1
  action_space_n := 1
  reward_matrix := fun _ => 0
  look_step_ahead := fun _ _ => (0, 5, false)

/-- One state, one zero-reward self-loop action (value-iteration witness). -/
def envV : Env where
  world_size := 1
  action_space_n := 1
  reward_matrix := fun _ => 0
  look_step_ahead := fun _ _ => (0, 0, false)

/-! ### Claims -/

/-- C1: for every state s, `single_step_policy_evaluation` returns a fresh
value array of length `env.world.size` whose entry at s is
`reward_matrix[s] + Σ_a policy[s][a] * (discount * oldValue[nextState(s,a)])`;
every entry is computed from the same input array `v` (synchronous Jacobi
sweep), and the source writes only into the fresh `v_new`, never into the
input policy or value array. -/
theorem eval_is_synchronous_bellman_sweep (policy : List (List ℚ)) (env : Env)
    (discount_factor : ℚ) (v : List ℚ) :
    (single_step_policy_evaluation policy env discount_factor (some v)).length =
      env.world_size ∧
    ∀ s, s < env.world_size →
      (single_step_policy_evaluation policy env discount_factor (some v)).getD s 0 =
        env.reward_matrix s +
          ∑ a ∈ Finset.range (policy.getD s []).length,
            (policy.getD s []).getD a 0 *
              (discount_factor * v.getD (env.look_step_ahead s a).1 0) :=
  ⟨single_step_policy_evaluation_length policy env discount_factor (some v),
   fun _ hs => single_step_policy_evaluation_getD policy env discount_factor v hs⟩

/-- Witness for C1 on a concrete one-state model: the update of value 5 with
state reward 2 and discount 1 is 2 + 1 * (1 * 5) = 7. -/
theorem eval_sweep_witness :
    ((single_step_policy_evaluation [[1]] envW 1 (some [5])).getD 0 0 =
      envW.reward_matrix 0 +
        ∑ a ∈ Finset.range (([[(1 : ℚ)]].getD 0 []).length),
          ([[(1 : ℚ)]].getD 0 []).getD a 0 *
            (1 * [(5 : ℚ)].getD (envW.look_step_ahead 0 a).1 0)) ∧
    single_step_policy_evaluation [[1]] envW 1 (some [5]) = [7] :=
  ⟨(eval_is_synchronous_bellman_sweep [[1]] envW 1 [5]).2 0 (by decide),
   by with_unfolding_all decide⟩

/-- C2: for every state s, the improver computes
`action_values[a] = policy[s][a] * (reward(s,a) + discount * value[nextState(s,a)])`
for every action, and assigns to the row of s the distribution putting
`1 / |max_value_actions|` on every action attaining the maximal action value
and 0 on all other actions; when exactly two actions attain the maximum each
receives exactly 1/2. -/
theorem greedy_row_uniform_on_argmax (policy : List (List ℚ)) (env : Env)
    (v : List ℚ) (d : ℚ) (s : Nat) (hs : s < env.world_size) :
    (∀ a, a < env.action_space_n →
        (action_values_for policy env v d s).getD a 0 =
          (policy.getD s []).getD a 0 *
            ((env.look_step_ahead s a).2.1 +
              d * v.getD (env.look_step_ahead s a).1 0)) ∧
    ((greedy_policy_from_value_function policy env v d).getD s [] =
        (List.range env.action_space_n).map fun a =>
          if a ∈ max_value_actions policy env v d s then
            1 / ((max_value_actions policy env v d s).length : ℚ)
          else 0) ∧
    ((max_value_actions policy env v d s).length = 2 →
        ∀ a ∈ max_value_actions policy env v d s,
          ((greedy_policy_from_value_function policy env v d).getD s []).getD a 0 =
            1 / 2) := by
  refine ⟨?_, ?_, ?_⟩
  · intro a ha
    rw [action_values_for, getD_map_range _ _ ha]
  · rw [greedy_policy_getD_row policy env v d hs, greedy_row]
  · intro h2 a ha
    have haA : a < env.action_space_n :=
      List.mem_range.mp (List.mem_of_mem_filter ha)
    rw [greedy_policy_getD_row policy env v d hs, greedy_row,
      getD_map_range _ _ haA, if_pos ha, h2]
    norm_num

/-- Witness for C2: one state, three actions where the first two tie for the
maximal action value; the greedy row is [1/2, 1/2, 0]. -/
theorem greedy_tie_witness :
    (max_value_actions [[1, 1, 1]] envT [0] 1 0).length = 2 ∧
    (greedy_policy_from_value_function [[1, 1, 1]] envT [0] 1).getD 0 [] =
      [1 / 2, 1 / 2, 0] := by
  have h := greedy_row_uniform_on_argmax [[1, 1, 1]] envT [0] 1 0 (by decide)
  refine ⟨by with_unfolding_all decide, ?_⟩
  rw [h.2.1]
  with_unfolding_all decide

/-- C6: every row of the matrix returned by the improver is a probability
distribution: it sums to exactly 1 and has no negative entries (exact
rational arithmetic; `env.action_space.n` must be positive, since `np.amax`
of an empty action-value array would raise in the source). -/
theorem greedy_policy_rows_are_distributions (policy : List (List ℚ)) (env : Env)
    (v : List ℚ) (d : ℚ) (hA : 0 < env.action_space_n) :
    ∀ s, s < env.world_size →
      (((greedy_policy_from_value_function policy env v d).getD s []).sum = 1 ∧
       ∀ q ∈ (greedy_policy_from_value_function policy env v d).getD s [], 0 ≤ q) := by
  intro s hs
  rw [greedy_policy_getD_row policy env v d hs, greedy_row]
  have hnodup : (max_value_actions policy env v d s).Nodup :=
    List.Nodup.filter _ (List.nodup_range env.action_space_n)
  have hsub : ∀ a ∈ max_value_actions policy env v d s, a ∈ Finset.range env.action_space_n := by
    intro a ha
    exact Finset.mem_range.mpr (List.mem_range.mp (List.mem_of_mem_filter ha))
  have hlen : (max_value_actions policy env v d s).length ≠ 0 := by
    intro h
    exact max_value_actions_ne_nil policy env v d s hA (List.length_eq_zero.mp h)
  constructor
  · rw [sum_map_range]
    rw [← Finset.sum_filter (fun a => a ∈ max_value_actions policy env v d s)
      (fun _ => 1 / ((max_value_actions policy env v d s).length : ℚ))]
    rw [Finset.sum_const]
    have hcard : (Finset.filter (fun a => a ∈ max_value_actions policy env v d s)
        (Finset.range env.action_space_n)).card =
        (max_value_actions policy env v d s).length := by
      rw [← List.toFinset_card_of_nodup hnodup]
      congr 1
      ext a
      simp only [Finset.mem_filter, List.mem_toFinset]
      exact ⟨fun h => h.2, fun h => ⟨hsub a h, h⟩⟩
    rw [hcard, nsmul_eq_mul, mul_one_div,
      div_self (Nat.cast_ne_zero.mpr hlen)]
  · intro q hq
    obtain ⟨a, _, rfl⟩ := List.mem_map.mp hq
    split_ifs
    · exact div_nonneg zero_le_one (Nat.cast_nonneg _)
    · exact le_refl 0

/-- Witness for C6 on a two-state, two-action model: the greedy row of
state 1 sums to 1 and is nonnegative. -/
theorem greedy_rows_distribution_witness :
    (((greedy_policy_from_value_function [[1, 0], [0, 1]] envG [3, 4] 1).getD 1 []).sum = 1 ∧
     ∀ q ∈ (greedy_policy_from_value_function [[1, 0], [0, 1]] envG [3, 4] 1).getD 1 [],
       0 ≤ q) :=
  greedy_policy_rows_are_distributions [[1, 0], [0, 1]] envG [3, 4] 1 (by decide) 1 (by decide)

/-- C7 counterexample: the source assigns `policy[state] = ...` and returns
the very same ndarray, so the content of the caller's policy array after the
call (`policy_after_greedy`) is the returned matrix.  On this input it
differs from the original content: the caller's input policy array is NOT
left unmodified, refuting the claim that the improver returns a new matrix
distinct from its input with no in-place aliasing. -/
theorem greedy_input_modified_cex :
    policy_after_greedy [[0, 1]] envM [0] 1 ≠ [[0, 1]] := by
  with_unfolding_all decide

/-- C7 amended: the improver returns the very array it was handed, with
every row overwritten in place: after the call the content of the caller's
policy array equals the returned matrix, which has `env.world.size` rows of
`env.action_space.n` entries each.  The caller's input is therefore
modified whenever the greedy matrix differs from the original content, and
the control loops carry this one array across iterations. -/
theorem greedy_mutates_input_in_place (policy : List (List ℚ)) (env : Env)
    (v : List ℚ) (d : ℚ) :
    policy_after_greedy policy env v d =
      greedy_policy_from_value_function policy env v d ∧
    (greedy_policy_from_value_function policy env v d).length = env.world_size ∧
    ∀ row ∈ greedy_policy_from_value_function policy env v d,
      row.length = env.action_space_n := by
  refine ⟨rfl, ?_, ?_⟩
  · rw [greedy_policy_from_value_function, List.length_map, List.length_range]
  · intro row hrow
    rw [greedy_policy_from_value_function] at hrow
    obtain ⟨s, _, rfl⟩ := List.mem_map.mp hrow
    rw [greedy_row, List.length_map, List.length_range]

/-- Witness for C7 amended on a concrete one-state model. -/
theorem greedy_in_place_witness :
    policy_after_greedy [[1, 0]] envM [0] 1 =
      greedy_policy_from_value_function [[1, 0]] envM [0] 1 ∧
    (greedy_policy_from_value_function [[1, 0]] envM [0] 1).length = envM.world_size ∧
    ((greedy_policy_from_value_function [[1, 0]] envM [0] 1).getD 0 []).length =
      envM.action_space_n := by
  have h := greedy_mutates_input_in_place [[1, 0]] envM [0] 1
  exact ⟨h.1, h.2.1, h.2.2 _ (by with_unfolding_all decide)⟩

/-- C8: if `value` satisfies, in exact arithmetic, the Bellman-expectation
equation of the evaluator at every state, then one evaluation sweep returns
exactly `value`: the update is idempotent at its fixed point. -/
theorem eval_fixed_point_idempotent (policy : List (List ℚ)) (env : Env)
    (d : ℚ) (value : List ℚ) (hlen : value.length = env.world_size)
    (hfix : ∀ s, s < env.world_size →
      value.getD s 0 = env.reward_matrix s +
        ∑ a ∈ Finset.range (policy.getD s []).length,
          (policy.getD s []).getD a 0 *
            (d * value.getD (env.look_step_ahead s a).1 0)) :
    single_step_policy_evaluation policy env d (some value) = value := by
  have hlen2 : (single_step_policy_evaluation policy env d (some value)).length =
      value.length := by
    rw [single_step_policy_evaluation_length, hlen]
  apply List.ext_get hlen2
  intro n h1 h2
  have hn : n < env.world_size := by
    rw [single_step_policy_evaluation_length] at h1
    exact h1
  have hgd : (single_step_policy_evaluation policy env d (some value)).getD n 0 =
      value.getD n 0 := by
    rw [single_step_policy_evaluation_getD policy env d value hn, ← hfix n hn]
  rw [List.getD_eq_getElem?_getD, List.getD_eq_getElem?_getD,
    List.getElem?_eq_getElem h1, List.getElem?_eq_getElem h2] at hgd
  exact hgd

/-- Witness for C8: with one state, reward 1, self loop and discount 1/2,
the value 2 = 1 + (1/2) * 2 is a fixed point and the sweep returns it. -/
theorem eval_fixed_point_witness :
    single_step_policy_evaluation [[1]] envF (1 / 2) (some [2]) = [2] :=
  eval_fixed_point_idempotent [[1]] envF (1 / 2) [2] (by decide)
    (by with_unfolding_all decide)

/-- C9: the evaluator depends only on the state count, the state-indexed
reward table and the next-state component of `look_step_ahead`; two models
that agree on those (but may differ in the per-transition reward and the
done flag returned by step) give identical sweeps.  The improver also reads
the per-transition reward, but never the done flag: if the rewards agree
too, its output is identical as well. -/
theorem eval_and_greedy_ignore_step_reward_and_done (e1 e2 : Env)
    (policy : List (List ℚ)) (d : ℚ) (v : List ℚ)
    (hsize : e1.world_size = e2.world_size)
    (hA : e1.action_space_n = e2.action_space_n)
    (hrm : ∀ s, e1.reward_matrix s = e2.reward_matrix s)
    (hnext : ∀ s a, (e1.look_step_ahead s a).1 = (e2.look_step_ahead s a).1) :
    (single_step_policy_evaluation policy e1 d (some v) =
      single_step_policy_evaluation policy e2 d (some v)) ∧
    ((∀ s a, (e1.look_step_ahead s a).2.1 = (e2.look_step_ahead s a).2.1) →
      greedy_policy_from_value_function policy e1 v d =
        greedy_policy_from_value_function policy e2 v d) := by
  constructor
  · rw [single_step_policy_evaluation_def, single_step_policy_evaluation_def, ← hsize]
    apply List.map_congr_left
    intro s _
    rw [hrm s]
    congr 1
    apply congrArg
    apply List.map_congr_left
    intro a _
    rw [hnext s a]
  · intro hrew
    have hav : ∀ s, action_values_for policy e1 v d s = action_values_for policy e2 v d s := by
      intro s
      rw [action_values_for, action_values_for, ← hA]
      apply List.map_congr_left
      intro a _
      rw [hnext s a, hrew s a]
    have hM : ∀ s, max_value_actions policy e1 v d s = max_value_actions policy e2 v d s := by
      intro s
      rw [max_value_actions, max_value_actions, ← hA, hav s]
    have hroweq : ∀ s, greedy_row policy e1 v d s = greedy_row policy e2 v d s := by
      intro s
      rw [greedy_row, greedy_row, ← hA, hM s]
    rw [greedy_policy_from_value_function, greedy_policy_from_value_function, ← hsize]
    apply List.map_congr_left
    intro s _
    exact hroweq s

/-- Witness for C9: two one-state models identical except that one reports
done = true and transition reward is fetched but unused; both the sweep and
the improver coincide. -/
theorem ignore_done_witness :
    (single_step_policy_evaluation [[1]] envI1 1 (some [3]) =
      single_step_policy_evaluation [[1]] envI2 1 (some [3])) ∧
    greedy_policy_from_value_function [[1]] envI1 [3] 1 =
      greedy_policy_from_value_function [[1]] envI2 [3] 1 := by
  have h := eval_and_greedy_ignore_step_reward_and_done envI1 envI2 [[1]] 1 [3]
    rfl rfl (fun _ => rfl) (fun _ _ => rfl)
  exact ⟨h.1, h.2 (fun _ _ => rfl)⟩

/-- C3: one pass of the policy_iteration loop performs exactly one
evaluation sweep of the current policy (`pv` below; there is no inner
evaluation-to-convergence loop), computes the signed
`delta = np.max(value_function - policy_value)` with no absolute value,
computes the greedy policy from the NEW value function `pv`, and then:
if `delta < threshold` it terminates returning the pair
`(policy_value, greedy_policy)`; otherwise, if the incremented step count
hits `max_steps` it warns and returns the same pair, and otherwise the loop
continues with the value function replaced by `pv` (and the policy array
holding the greedy matrix, having been overwritten in place). -/
theorem policy_iteration_single_sweep_step (env : Env) (d th : ℚ) (ms : Nat)
    (policy : List (List ℚ)) (v : List ℚ) (n fuel : Nat) (pv : List ℚ)
    (hpv : pv = single_step_policy_evaluation policy env d (some v))
    (delta : ℚ) (hdelta : delta = amax (List.zipWith (fun a b => a - b) v pv))
    (gp : List (List ℚ)) (hgp : gp = greedy_policy_from_value_function policy env pv d) :
    (delta < th →
        policy_iteration_loop env d th ms (fuel + 1) policy v n =
          some ((pv, gp), false, n + 1)) ∧
    (¬ delta < th → n + 1 = ms →
        policy_iteration_loop env d th ms (fuel + 1) policy v n =
          some ((pv, gp), true, n + 1)) ∧
    (¬ delta < th → n + 1 ≠ ms →
        policy_iteration_loop env d th ms (fuel + 1) policy v n =
          policy_iteration_loop env d th ms fuel gp pv (n + 1)) := by
  subst hpv
  subst hdelta
  subst hgp
  refine ⟨fun h1 => ?_, fun h1 h2 => ?_, fun h1 h2 => ?_⟩
  · rw [policy_iteration_loop]
    simp only [if_pos h1]
  · rw [policy_iteration_loop]
    simp only [if_neg h1, if_pos h2]
  · rw [policy_iteration_loop]
    simp only [if_neg h1, if_neg h2]

/-- Witness for C3 on a concrete one-state model: the first pass converges
at once (delta = 0 < 10) and returns the one-sweep value with its greedy
policy and step count 1. -/
theorem policy_iteration_step_witness :
    (policy_iteration_loop envP 1 10 5 (0 + 1) [[1]] [0] 0 =
      some ((single_step_policy_evaluation [[1]] envP 1 (some [0]),
             greedy_policy_from_value_function [[1]] envP
               (single_step_policy_evaluation [[1]] envP 1 (some [0])) 1),
            false, 0 + 1)) ∧
    policy_iteration_loop envP 1 10 5 1 [[1]] [0] 0 = some (([0], [[1]]), false, 1) :=
  ⟨(policy_iteration_single_sweep_step envP 1 10 5 [[1]] [0] 0 0 _ rfl _ rfl _ rfl).1
      (by with_unfolding_all decide),
   by with_unfolding_all decide⟩

/-- C4 counterexample: the claim reads the comparison
`greedy_policy.all() == new_policy.all()` as a test of the previous greedy
policy against the new one, with the unequal case adopting the new policy
and continuing.  On this concrete input the aggregate booleans of the
previous content `[[0,1],[0,1]]` (has a zero entry) and of the new greedy
matrix `[[1/2,1/2],[1/2,1/2]]` (all nonzero) DIFFER, so under the claim the
loop would continue; the code instead terminates at the first iteration
(step count 0, no warning) returning the new matrix, because the greedy
call overwrote `greedy_policy` in place and the test compared the new
matrix with itself. -/
theorem value_iteration_aggregate_check_cex :
    (np_all [[0, 1], [0, 1]] ≠
      np_all (greedy_policy_from_value_function [[0, 1], [0, 1]] envC [0, 0] 1)) ∧
    value_iteration [[0, 1], [0, 1]] envC none (1 / 2) 5 1 =
      some (([0, 0], [[1 / 2, 1 / 2], [1 / 2, 1 / 2]]), false, 0) := by
  with_unfolding_all decide

/-- C4 amended: a new greedy policy is computed only on iterations where
`delta < threshold`; the aggregate test `greedy_policy.all() ==
new_policy.all()` then compares the new policy with itself, because the
greedy call overwrote `greedy_policy` in place, so the test always judges
the two equal and the loop terminates at once with the overwritten policy;
the adopt-and-continue branch is unreachable.  On iterations with
`delta >= threshold` no greedy policy is computed and the loop either warns
and stops at the step budget or continues unchanged. -/
theorem value_iteration_convergence_check_behaviour (env : Env) (d th : ℚ)
    (ms : Nat) (gp : List (List ℚ)) (v : List ℚ) (n fuel : Nat) (pv : List ℚ)
    (hpv : pv = single_step_policy_evaluation gp env d (some v))
    (delta : ℚ) (hdelta : delta = amax (List.zipWith (fun a b => a - b) v pv)) :
    (delta < th →
        value_iteration_loop env d th ms (fuel + 1) gp v n =
          some ((pv, greedy_policy_from_value_function gp env pv d), false, n)) ∧
    (¬ delta < th → n + 1 = ms →
        value_iteration_loop env d th ms (fuel + 1) gp v n =
          some ((pv, gp), true, n + 1)) ∧
    (¬ delta < th → n + 1 ≠ ms →
        value_iteration_loop env d th ms (fuel + 1) gp v n =
          value_iteration_loop env d th ms fuel gp pv (n + 1)) := by
  subst hpv
  subst hdelta
  refine ⟨fun h1 => ?_, fun h1 h2 => ?_, fun h1 h2 => ?_⟩
  · rw [value_iteration_loop]
    simp only [if_pos h1, eq_self_iff_true, if_true]
  · rw [value_iteration_loop]
    simp only [if_neg h1, if_pos h2]
  · rw [value_iteration_loop]
    simp only [if_neg h1, if_neg h2]

/-- Witness for C4 amended on the non-converged branch: the sweep lowers
the value (signed delta 1 >= 1/2), no greedy policy is computed, and the
loop continues with the new value function and the same policy. -/
theorem value_iteration_branch_witness :
    value_iteration_loop envD 1 (1 / 2) 7 (3 + 1) [[1]] [0] 0 =
      value_iteration_loop envD 1 (1 / 2) 7 3 [[1]]
        (single_step_policy_evaluation [[1]] envD 1 (some [0])) (0 + 1) :=
  (value_iteration_convergence_check_behaviour envD 1 (1 / 2) 7 [[1]] [0] 0 3 _ rfl
      _ rfl).2.2 (by with_unfolding_all decide) (by decide)

/-- C10: in value_iteration the branch that adopts a new greedy policy and
keeps iterating is never executed: whenever `delta < threshold`, for every
loop state whatsoever, the comparison `greedy_policy.all() ==
new_policy.all()` is between the in-place-overwritten array and itself, so
the loop breaks immediately, returning the overwritten (new) policy with
the step count not incremented. -/
theorem value_iteration_stops_at_first_converged_sweep (env : Env) (d th : ℚ)
    (ms : Nat) (gp : List (List ℚ)) (v : List ℚ) (n fuel : Nat) (pv : List ℚ)
    (hpv : pv = single_step_policy_evaluation gp env d (some v))
    (hdelta : amax (List.zipWith (fun a b => a - b) v pv) < th) :
    value_iteration_loop env d th ms (fuel + 1) gp v n =
      some ((pv, greedy_policy_from_value_function gp env pv d), false, n) := by
  subst hpv
  rw [value_iteration_loop]
  simp only [if_pos hdelta, eq_self_iff_true, if_true]

/-- Witness for C10 on a concrete one-state model at an arbitrary step
count 4: the loop breaks at once with the new policy and step count 4. -/
theorem value_iteration_stop_witness :
    (value_iteration_loop envV 1 5 9 (2 + 1) [[1]] [0] 4 =
      some ((single_step_policy_evaluation [[1]] envV 1 (some [0]),
             greedy_policy_from_value_function [[1]] envV
               (single_step_policy_evaluation [[1]] envV 1 (some [0])) 1),
            false, 4)) ∧
    value_iteration_loop envV 1 5 9 3 [[1]] [0] 4 = some (([0], [[1]]), false, 4) :=
  ⟨value_iteration_stops_at_first_converged_sweep envV 1 5 9 [[1]] [0] 4 2 _ rfl
      (by with_unfolding_all decide),
   by with_unfolding_all decide⟩

theorem policy_iteration_loop_terminates (env : Env) (d th : ℚ) (ms : Nat) :
    ∀ fuel policy v n, n < ms → ms - n ≤ fuel →
      ∃ pv gp w k,
        policy_iteration_loop env d th ms fuel policy v n = some ((pv, gp), w, k) ∧
        k ≤ ms ∧ (w = true → k = ms) := by
  intro fuel
  induction fuel with
  | zero =>
    intro policy v n hn hf
    omega
  | succ fuel ih =>
    intro policy v n hn hf
    rw [policy_iteration_loop]
    by_cases h1 : amax (List.zipWith (fun a b => a - b) v
        (single_step_policy_evaluation policy env d (some v))) < th
    · simp only [if_pos h1]
      exact ⟨_, _, false, n + 1, rfl, by omega, by simp⟩
    · by_cases h2 : n + 1 = ms
      · simp only [if_neg h1, if_pos h2]
        exact ⟨_, _, true, n + 1, rfl, by omega, fun _ => h2⟩
      · obtain ⟨pv, gp, w, k, heq, hk, hw⟩ := ih
          (greedy_policy_from_value_function policy env
            (single_step_policy_evaluation policy env d (some v)) d)
          (single_step_policy_evaluation policy env d (some v)) (n + 1)
          (by omega) (by omega)
        refine ⟨pv, gp, w, k, ?_, hk, hw⟩
        simp only [if_neg h1, if_neg h2]
        exact heq

theorem value_iteration_loop_terminates (env : Env) (d th : ℚ) (ms : Nat) :
    ∀ fuel gp v n, n < ms → ms - n ≤ fuel →
      ∃ pv gp2 w k,
        value_iteration_loop env d th ms fuel gp v n = some ((pv, gp2), w, k) ∧
        k ≤ ms ∧ (w = true → k = ms) := by
  intro fuel
  induction fuel with
  | zero =>
    intro gp v n hn hf
    omega
  | succ fuel ih =>
    intro gp v n hn hf
    rw [value_iteration_loop]
    by_cases h1 : amax (List.zipWith (fun a b => a - b) v
        (single_step_policy_evaluation gp env d (some v))) < th
    · simp only [if_pos h1, eq_self_iff_true, if_true]
      exact ⟨_, _, false, n, rfl, by omega, by simp⟩
    · by_cases h2 : n + 1 = ms
      · simp only [if_neg h1, if_pos h2]
        exact ⟨_, _, true, n + 1, rfl, by omega, fun _ => h2⟩
      · obtain ⟨pv, gp2, w, k, heq, hk, hw⟩ := ih gp
          (single_step_policy_evaluation gp env d (some v)) (n + 1)
          (by omega) (by omega)
        refine ⟨pv, gp2, w, k, ?_, hk, hw⟩
        simp only [if_neg h1, if_neg h2]
        exact heq

theorem policy_iteration_loop_warns (env : Env) (d th : ℚ) (ms : Nat) :
    ∀ fuel policy v n, n < ms → ms - n ≤ fuel →
      pi_all_deltas_at_least env d th (ms - n) policy v = true →
      ∃ pv gp,
        policy_iteration_loop env d th ms fuel policy v n = some ((pv, gp), true, ms) := by
  intro fuel
  induction fuel with
  | zero =>
    intro policy v n hn hf hnc
    omega
  | succ fuel ih =>
    intro policy v n hn hf hnc
    obtain ⟨k, hk⟩ : ∃ k, ms - n = k + 1 := ⟨ms - n - 1, by omega⟩
    rw [hk] at hnc
    simp only [pi_all_deltas_at_least, Bool.and_eq_true] at hnc
    obtain ⟨h1b, h2b⟩ := hnc
    have h1 : ¬ amax (List.zipWith (fun a b => a - b) v
        (single_step_policy_evaluation policy env d (some v))) < th := by
      simpa using h1b
    rw [policy_iteration_loop]
    simp only [if_neg h1]
    by_cases h2 : n + 1 = ms
    · simp only [if_pos h2]
      exact ⟨_, _, by rw [h2]⟩
    · simp only [if_neg h2]
      have hk2 : ms - (n + 1) = k := by omega
      exact ih
        (greedy_policy_from_value_function policy env
          (single_step_policy_evaluation policy env d (some v)) d)
        (single_step_policy_evaluation policy env d (some v)) (n + 1)
        (by omega) (by omega) (by rw [hk2]; exact h2b)

theorem value_iteration_loop_warns (env : Env) (d th : ℚ) (ms : Nat) :
    ∀ fuel gp v n, n < ms → ms - n ≤ fuel →
      vi_all_deltas_at_least env d th (ms - n) gp v = true →
      ∃ pv gp2,
        value_iteration_loop env d th ms fuel gp v n = some ((pv, gp2), true, ms) := by
  intro fuel
  induction fuel with
  | zero =>
    intro gp v n hn hf hnc
    omega
  | succ fuel ih =>
    intro gp v n hn hf hnc
    obtain ⟨k, hk⟩ : ∃ k, ms - n = k + 1 := ⟨ms - n - 1, by omega⟩
    rw [hk] at hnc
    simp only [vi_all_deltas_at_least, Bool.and_eq_true] at hnc
    obtain ⟨h1b, h2b⟩ := hnc
    have h1 : ¬ amax (List.zipWith (fun a b => a - b) v
        (single_step_policy_evaluation gp env d (some v))) < th := by
      simpa using h1b
    rw [value_iteration_loop]
    simp only [if_neg h1]
    by_cases h2 : n + 1 = ms
    · simp only [if_pos h2]
      exact ⟨_, _, by rw [h2]⟩
    · simp only [if_neg h2]
      have hk2 : ms - (n + 1) = k := by omega
      exact ih gp (single_step_policy_evaluation gp env d (some v)) (n + 1)
        (by omega) (by omega) (by rw [hk2]; exact h2b)

/-- C5: with `max_steps >= 1`, both controllers return within `max_steps`
loop iterations for every input: the result is always `some` pair
`(policy_value, greedy_policy)` (never an exception) with the final step
count at most `max_steps`, and the non-fatal warning flag is raised only
when the step budget itself was hit.  Moreover, when the step budget IS
exhausted before `delta < threshold` — at every pass of the run the signed
delta stays at or above the threshold, `pi_all_deltas_at_least` resp.
`vi_all_deltas_at_least` — the controller does issue the warning (flag
true, step count exactly `max_steps`) and still returns its current
`(policy_value, greedy_policy)` estimate. -/
theorem controllers_terminate_within_max_steps (policy : List (List ℚ))
    (env : Env) (v : Option (List ℚ)) (th : ℚ) (ms : Nat) (d : ℚ)
    (hms : 1 ≤ ms) :
    ((∃ pv gp w k,
        policy_iteration policy env v th ms d = some ((pv, gp), w, k) ∧
        k ≤ ms ∧ (w = true → k = ms)) ∧
     (∃ pv gp w k,
        value_iteration policy env v th ms d = some ((pv, gp), w, k) ∧
        k ≤ ms ∧ (w = true → k = ms))) ∧
    ((pi_all_deltas_at_least env d th ms policy
          (v.getD (List.replicate env.world_size 0)) = true →
        ∃ pv gp, policy_iteration policy env v th ms d = some ((pv, gp), true, ms)) ∧
     (vi_all_deltas_at_least env d th ms policy
          (v.getD (List.replicate env.world_size 0)) = true →
        ∃ pv gp, value_iteration policy env v th ms d = some ((pv, gp), true, ms))) :=
  ⟨⟨policy_iteration_loop_terminates env d th ms (ms + 1) policy
       (v.getD (List.replicate env.world_size 0)) 0 (by omega) (by omega),
    value_iteration_loop_terminates env d th ms (ms + 1) policy
       (v.getD (List.replicate env.world_size 0)) 0 (by omega) (by omega)⟩,
   ⟨fun hnc => policy_iteration_loop_warns env d th ms (ms + 1) policy
       (v.getD (List.replicate env.world_size 0)) 0 (by omega) (by omega)
       (by simpa using hnc),
    fun hnc => value_iteration_loop_warns env d th ms (ms + 1) policy
       (v.getD (List.replicate env.world_size 0)) 0 (by omega) (by omega)
       (by simpa using hnc)⟩⟩

/-- Witness for C5 on a run that exhausts its budget: on the one-state
model with reward -1 the signed delta of every pass is 1 >= 1/2, so with
max_steps = 2 both controllers stop after exactly 2 iterations, issue the
warning (flag true), and still return the current pair
([-2], [[1]]) -- no exception. -/
theorem controllers_terminate_witness :
    ((∃ pv gp w k,
        policy_iteration [[1]] envD none (1 / 2) 2 1 = some ((pv, gp), w, k) ∧
        k ≤ 2 ∧ (w = true → k = 2)) ∧
     (∃ pv gp,
        policy_iteration [[1]] envD none (1 / 2) 2 1 = some ((pv, gp), true, 2)) ∧
     (∃ pv gp,
        value_iteration [[1]] envD none (1 / 2) 2 1 = some ((pv, gp), true, 2))) ∧
    policy_iteration [[1]] envD none (1 / 2) 2 1 = some (([-2], [[1]]), true, 2) ∧
    value_iteration [[1]] envD none (1 / 2) 2 1 = some (([-2], [[1]]), true, 2) :=
  ⟨⟨(controllers_terminate_within_max_steps [[1]] envD none (1 / 2) 2 1 (by decide)).1.1,
    (controllers_terminate_within_max_steps [[1]] envD none (1 / 2) 2 1 (by decide)).2.1
      (by with_unfolding_all decide),
    (controllers_terminate_within_max_steps [[1]] envD none (1 / 2) 2 1 (by decide)).2.2
      (by with_unfolding_all decide)⟩,
   by with_unfolding_all decide, by with_unfolding_all decide⟩

end GridworldDP
